import Mathlib

/-!
Shallow embedding of `src/address_book.py`: a command-line address book with
validated value types (`Name`, `Phone`, `Birthday`), a record/collection data
model (`Record`, `AddressBook`), a birthday-window query
(`get_upcoming_birthdays`) and a command layer wrapped by the `input_error`
decorator.  Python strings are Lean `String`s (Python `len` counts codepoints,
as does `String.length`); Python exceptions are an explicit `PyExc` type;
in-place mutation of records reached through the book is modelled by updating
the entry under the key the record was looked up at.
-/

/-- Python exceptions relevant to the program.  `input_error` catches
`IndexError`, `KeyError` and `ValueError`; `otherExc` stands for any other
exception class, which the decorator would let escape. -/
inductive PyExc where
  | indexError : PyExc
  | keyError : PyExc
  | valueError : String → PyExc
  | otherExc : String → PyExc
deriving DecidableEq, Repr

/-- Start codepoints of the Unicode `Nd` (decimal digit) ranges; every such
range is a contiguous run of the ten digits 0..9.  This is the character set
matched by `\d` in a Python `str` regex and convertible by `int()`.  The ASCII
range 0x30 comes first; all the others start at 0x660 or above. -/
def decStarts : List Nat :=
  [0x30, 0x660, 0x6F0, 0x7C0, 0x966, 0x9E6, 0xA66, 0xAE6, 0xB66, 0xBE6,
   0xC66, 0xCE6, 0xD66, 0xDE6, 0xE50, 0xED0, 0xF20, 0x1040, 0x1090, 0x17E0,
   0x1810, 0x1946, 0x19D0, 0x1A80, 0x1A90, 0x1B50, 0x1BB0, 0x1C40, 0x1C50,
   0xA620, 0xA8D0, 0xA900, 0xA9D0, 0xA9F0, 0xAA50, 0xABF0, 0xFF10,
   0x104A0, 0x10D30, 0x11066, 0x110F0, 0x11136, 0x111D0, 0x112F0, 0x11450,
   0x114D0, 0x11650, 0x116C0, 0x11730, 0x118E0, 0x11950, 0x11C50, 0x11D50,
   0x11DA0, 0x16A60, 0x16B50, 0x1D7CE, 0x1D7D8, 0x1D7E2, 0x1D7EC, 0x1D7F6,
   0x1E140, 0x1E2F0, 0x1E950, 0x1FBF0]

/-- Numeric value of a Unicode decimal digit (category `Nd`), `none` for any
other character: the digit semantics of Python `\d` and `int()`. -/
def pyDecimalVal (c : Char) : Option Nat :=
  (decStarts.find? (fun s => decide (s ≤ c.toNat) && decide (c.toNat < s + 10))).map
    (fun s => c.toNat - s)

/-- Characters with Unicode `Numeric_Type=Digit` that are not in `Nd`
(superscripts, subscripts, Ethiopic digits, circled digits, ...).  Together
with `Nd` these are exactly the characters Python `str.isdigit` accepts. -/
def digitExtra (c : Char) : Bool :=
  let n := c.toNat
  n == 0xB2 || n == 0xB3 || n == 0xB9 ||
  (0x1369 ≤ n && n ≤ 0x1371) || n == 0x19DA || n == 0x2070 ||
  (0x2074 ≤ n && n ≤ 0x2079) || (0x2080 ≤ n && n ≤ 0x2089) ||
  (0x2460 ≤ n && n ≤ 0x2468) || (0x2474 ≤ n && n ≤ 0x247C) ||
  (0x2488 ≤ n && n ≤ 0x2490) || (0x24F5 ≤ n && n ≤ 0x24FD) ||
  (0x2776 ≤ n && n ≤ 0x277E) || (0x2780 ≤ n && n ≤ 0x2788) ||
  (0x278A ≤ n && n ≤ 0x2792) || (0x10A40 ≤ n && n ≤ 0x10A43) ||
  (0x1F100 ≤ n && n ≤ 0x1F10A)

/-- Python `c.isdigit()` for a single character: Unicode `Numeric_Type` is
`Digit` or `Decimal`. -/
def pyIsDigitChar (c : Char) : Bool :=
  (pyDecimalVal c).isSome || digitExtra c

/-- Python `str.isdigit()`: the string is nonempty and every character is a
digit in the sense above. -/
def pyStrIsDigit (s : String) : Bool :=
  !s.data.isEmpty && s.data.all pyIsDigitChar

/-- `class Name(Field)` of address_book.py: a bare wrapper, no validation. -/
structure Name where
  value : String
deriving DecidableEq, Repr

/-- `Name(value)` — the constructor inherited from `Field` accepts any string
and never raises, so construction always succeeds. -/
def mkName (s : String) : Except PyExc Name :=
  .ok ⟨s⟩

/-- `class Phone(Field)` of address_book.py. -/
structure Phone where
  value : String
deriving DecidableEq, Repr

/-- `Phone.validate`: `value.isdigit() and len(value) == 10`. -/
def Phone.validate (s : String) : Bool :=
  pyStrIsDigit s && s.length == 10

/-- `Phone.__init__`: raises `ValueError` when validation fails, otherwise
stores the raw string. -/
def mkPhone (s : String) : Except PyExc Phone :=
  if Phone.validate s then .ok ⟨s⟩
  else .error (.valueError ("Phone number must be 10 digits."))

/-- `year % 4 == 0 and (year % 100 != 0 or year % 400 == 0)`: the Gregorian
leap-year test used by Python `datetime`. -/
def isLeap (y : Nat) : Bool :=
  y % 4 == 0 && (y % 100 != 0 || y % 400 == 0)

/-- Days in a month, as in Python `calendar`/`datetime`. -/
def daysInMonth (y m : Nat) : Nat :=
  if m == 2 then (if isLeap y then 29 else 28)
  else if m == 4 || m == 6 || m == 9 || m == 11 then 30
  else 31

/-- `datetime._check_date_fields`: `MINYEAR <= year <= MAXYEAR`,
`1 <= month <= 12`, `1 <= day <= days_in_month(year, month)`. -/
def isRealDate (y m d : Nat) : Bool :=
  1 ≤ y && y ≤ 9999 && 1 ≤ m && m ≤ 12 && 1 ≤ d && d ≤ daysInMonth y m

/-!
`datetime.strptime(value, "%d.%m.%Y")`: CPython compiles the format to the
regex `(?P<d>3[01]|[12]\d|0[1-9]|[1-9])\.(?P<m>1[0-2]|0[1-9]|[1-9])\.`
`(?P<Y>\d\d\d\d)`, requires it to match the whole input, converts the groups
with `int()` (hence `\d` and `int` speak Unicode decimal digits, while the
explicit character classes `[01]`, `[12]`, `[0-9]`-style are ASCII literals),
and then builds a `datetime`, which re-checks the calendar fields.  Each
group's regex alternatives are modelled one function per alternative; the
whole match enumerates the alternatives in the regex's backtracking order.
-/

/-- Day alternative `3[01]` (character classes are ASCII codepoint tests;
48–57 are the codepoints of the ASCII digits). -/
def dayAlt1 : List Char → Option (Nat × List Char)
  | a :: c :: r =>
      if a.toNat = 51 then
        if c.toNat = 48 then some (30, r)
        else if c.toNat = 49 then some (31, r)
        else none
      else none
  | _ => none

/-- Day alternative `[12]\d`. -/
def dayAlt2 : List Char → Option (Nat × List Char)
  | a :: c :: r =>
      if a.toNat = 49 || a.toNat = 50 then
        (pyDecimalVal c).map
          (fun v => ((if a.toNat = 49 then 10 else 20) + v, r))
      else none
  | _ => none

/-- Day alternative `0[1-9]`. -/
def dayAlt3 : List Char → Option (Nat × List Char)
  | a :: c :: r =>
      if a.toNat = 48 && (49 ≤ c.toNat && c.toNat ≤ 57) then
        some (c.toNat - 48, r)
      else none
  | _ => none

/-- Day alternative `[1-9]`. -/
def dayAlt4 : List Char → Option (Nat × List Char)
  | c :: r =>
      if 49 ≤ c.toNat && c.toNat ≤ 57 then some (c.toNat - 48, r) else none
  | _ => none

/-- All ways the day group can match a prefix, in regex alternative order. -/
def dayAlts (cs : List Char) : List (Nat × List Char) :=
  [dayAlt1 cs, dayAlt2 cs, dayAlt3 cs, dayAlt4 cs].filterMap id

/-- Month alternative `1[0-2]`. -/
def monthAlt1 : List Char → Option (Nat × List Char)
  | a :: c :: r =>
      if a.toNat = 49 && (48 ≤ c.toNat && c.toNat ≤ 50) then
        some (10 + (c.toNat - 48), r)
      else none
  | _ => none

/-- Month alternative `0[1-9]`. -/
def monthAlt2 : List Char → Option (Nat × List Char)
  | a :: c :: r =>
      if a.toNat = 48 && (49 ≤ c.toNat && c.toNat ≤ 57) then
        some (c.toNat - 48, r)
      else none
  | _ => none

/-- Month alternative `[1-9]`. -/
def monthAlt3 : List Char → Option (Nat × List Char)
  | c :: r =>
      if 49 ≤ c.toNat && c.toNat ≤ 57 then some (c.toNat - 48, r) else none
  | _ => none

/-- All ways the month group can match a prefix, in regex alternative order. -/
def monthAlts (cs : List Char) : List (Nat × List Char) :=
  [monthAlt1 cs, monthAlt2 cs, monthAlt3 cs].filterMap id

/-- The year group `\d\d\d\d`: exactly four Unicode decimal digits. -/
def year4 : List Char → Option (Nat × List Char)
  | a :: b :: c :: d :: r =>
      match pyDecimalVal a, pyDecimalVal b, pyDecimalVal c, pyDecimalVal d with
      | some va, some vb, some vc, some vd =>
          some (1000 * va + 100 * vb + 10 * vc + vd, r)
      | _, _, _, _ => none
  | _ => none

/-- After day, dot, month, dot: the year must match `\d\d\d\d` and exhaust
the input. -/
def afterYear (dv mv : Nat) (r4 : List Char) : List (Nat × Nat × Nat) :=
  match year4 r4 with
  | some yr => if yr.2 = [] then [(dv, mv, yr.1)] else []
  | none => []

/-- After day, dot, and a month match: the literal `.` (codepoint 46) must
follow, then the year. -/
def afterMonth (dv : Nat) (mr : Nat × List Char) : List (Nat × Nat × Nat) :=
  match mr.2 with
  | c4 :: r4 => if c4.toNat = 46 then afterYear dv mr.1 r4 else []
  | [] => []

/-- After a day match: the literal `.` must follow, then the month
alternatives. -/
def afterDay (dr : Nat × List Char) : List (Nat × Nat × Nat) :=
  match dr.2 with
  | c2 :: r2 =>
      if c2.toNat = 46 then (monthAlts r2).flatMap (afterMonth dr.1) else []
  | [] => []

/-- Every full-string match of the `%d.%m.%Y` regex as `(day, month, year)`,
in backtracking order (there is at most one, but this follows the engine). -/
def regexMatches (cs : List Char) : List (Nat × Nat × Nat) :=
  (dayAlts cs).flatMap afterDay

/-- A calendar date as Python `datetime.date`: a `(year, month, day)` triple
(validity is enforced at every construction site, mirroring `date()`). -/
structure PyDate where
  year : Nat
  month : Nat
  day : Nat
deriving DecidableEq, Repr

/-- `datetime.strptime(value, "%d.%m.%Y").date()`: regex match, then the
`datetime` constructor's calendar check; `none` models the `ValueError`. -/
def strptimeDMY (cs : List Char) : Option PyDate :=
  match regexMatches cs with
  | [] => none
  | (d, m, y) :: _ => if isRealDate y m d then some ⟨y, m, d⟩ else none

/-- `class Birthday(Field)` of address_book.py. -/
structure Birthday where
  value : String
deriving DecidableEq, Repr

/-- `Birthday.validate_date`: `strptime` succeeds. -/
def Birthday.validate_date (s : String) : Bool :=
  (strptimeDMY s.data).isSome

/-- `Birthday.__init__`: raises `ValueError` when the date does not parse. -/
def mkBirthday (s : String) : Except PyExc Birthday :=
  if Birthday.validate_date s then .ok ⟨s⟩
  else .error (.valueError ("Invalid date format. Use DD.MM.YYYY"))

/-- `Birthday.string_to_date` (total model: `none` is the raised
`ValueError`, whose exact text is not needed by any theorem). -/
def string_to_date (s : String) : Option PyDate :=
  strptimeDMY s.data

/-- Python `date` comparison: lexicographic on `(year, month, day)`. -/
def dateLe (a b : PyDate) : Bool :=
  decide (a.year < b.year) ||
  (a.year == b.year &&
    (decide (a.month < b.month) ||
      (a.month == b.month && decide (a.day ≤ b.day))))

/-- The day after a valid date (successor in the proleptic Gregorian
calendar, as `date.fromordinal (d.toordinal + 1)` computes it). -/
def nextDay (d : PyDate) : PyDate :=
  if d.day < daysInMonth d.year d.month then ⟨d.year, d.month, d.day + 1⟩
  else if d.month < 12 then ⟨d.year, d.month + 1, 1⟩
  else ⟨d.year + 1, 1, 1⟩

/-- `d + timedelta(days=n)`. -/
def addDays (d : PyDate) : Nat → PyDate
  | 0 => d
  | n + 1 => nextDay (addDays d n)

/-- `bday_date.replace(year=y)`: rebuilds the date through the `date`
constructor, which re-validates the fields and raises `ValueError`
(modelled as `none`) when `y`/month/day is not a real date. -/
def replaceYear (d : PyDate) (y : Nat) : Option PyDate :=
  if isRealDate y d.month d.day then some ⟨y, d.month, d.day⟩ else none

/-- `class Record` of address_book.py: a `Name`, at most one `Phone`, at
most one `Birthday` (`Record.__init__` sets both to `None`). -/
structure Record where
  name : Name
  phone : Option Phone
  birthday : Option Birthday
deriving DecidableEq, Repr

/-- `Record(name)`. -/
def Record.mk0 (name : String) : Record :=
  ⟨⟨name⟩, none, none⟩

/-- Python `str(record.phone)`: `str(None)` is the text `None`, and
`Field.__str__` returns the stored string. -/
def strOptPhone : Option Phone → String
  | none => "None"
  | some p => p.value

/-- `Record.__str__`. -/
def recordStr (r : Record) : String :=
  "Contact name: " ++ r.name.value ++ ", phone " ++ strOptPhone r.phone ++
    ", birthday: " ++ (match r.birthday with
      | some b => b.value
      | none => "N/A")

/-- `class AddressBook(UserDict)`: an insertion-ordered mapping from a
name's string to its record, modelled as an association list (the
operations below keep keys unique, as a Python dict does). -/
structure AddressBook where
  data : List (String × Record)
deriving DecidableEq, Repr

/-- `AddressBook.find` — `self.data.get(name)` (`none` is Python `None`). -/
def AddressBook.find (book : AddressBook) (name : String) : Option Record :=
  (book.data.find? (fun e => e.1 == name)).map (fun e => e.2)

/-- `AddressBook.add_record` — `self.data[record.name.value] = record`:
replace the value under an existing key in place, else append. -/
def AddressBook.add_record (book : AddressBook) (r : Record) : AddressBook :=
  if book.data.any (fun e => e.1 == r.name.value) then
    ⟨book.data.map (fun e => if e.1 == r.name.value then (e.1, r) else e)⟩
  else ⟨book.data ++ [(r.name.value, r)]⟩

/-- In-place mutation of the record object stored under `key` (Python
mutates the record through the alias obtained from `find`; the dict entry
keeps its position and key). -/
def AddressBook.updateAt (book : AddressBook) (key : String)
    (f : Record → Record) : AddressBook :=
  ⟨book.data.map (fun e => if e.1 == key then (e.1, f e.2) else e)⟩

/-- `self.data.values()` in iteration (= insertion) order. -/
def AddressBook.values (book : AddressBook) : List Record :=
  book.data.map (fun e => e.2)

/-- Number of entries stored under `key`. -/
def AddressBook.countKey (book : AddressBook) (key : String) : Nat :=
  (book.data.filter (fun e => e.1 == key)).length

/-- The empty book (`AddressBook()`). -/
def emptyBook : AddressBook := ⟨[]⟩

/-- Whether a record passes the filter of `get_upcoming_birthdays` for a
given `today` and window: it has a birthday whose stored string parses,
whose re-anchoring to `today.year` is a real date, and whose anchored date
lies in `[today, today + days]` inclusive. -/
def inWindow (today : PyDate) (days : Nat) (r : Record) : Bool :=
  match r.birthday with
  | none => false
  | some bd =>
      match string_to_date bd.value with
      | none => false
      | some b =>
          match replaceYear b today.year with
          | none => false
          | some a => dateLe today a && dateLe a (addDays today days)

/-- The loop body of `AddressBook.get_upcoming_birthdays` over the list of
records; a `ValueError` from `strptime` (unparsable stored string) or from
`date.replace` (e.g. Feb 29 anchored into a non-leap year) aborts the
whole query. -/
def upcomingGo (today : PyDate) (days : Nat) :
    List Record → Except PyExc (List Record)
  | [] => .ok []
  | r :: rest =>
      match r.birthday with
      | none => upcomingGo today days rest
      | some bd =>
          match string_to_date bd.value with
          | none =>
              .error (.valueError ("time data does not match format %d.%m.%Y"))
          | some b =>
              match replaceYear b today.year with
              | none => .error (.valueError ("day is out of range for month"))
              | some a =>
                  if dateLe today a && dateLe a (addDays today days) then
                    (upcomingGo today days rest).map (fun l => r :: l)
                  else upcomingGo today days rest

/-- `AddressBook.get_upcoming_birthdays(days=7)`, with `date.today()` made
an explicit parameter. -/
def AddressBook.get_upcoming_birthdays (book : AddressBook) (today : PyDate)
    (days : Nat := 7) : Except PyExc (List Record) :=
  upcomingGo today days book.values

/-- Result of running a command body: the (possibly mutated) book together
with either the returned message or the exception it raised. -/
abbrev ExecRes := AddressBook × Except PyExc String

/-- `AddContact.execute`: length check, find, create-and-insert when
missing, then `record.add_phone(phone)` when `phone` is truthy.  The
insertion happens before phone validation, and an exception from
`Phone.__init__` leaves the inserted record in the book.  The
`save_address_book` call is an external side effect with no effect on the
book, so it is not modelled. -/
def addContactBody (args : List String) (book : AddressBook) : ExecRes :=
  match args with
  | name :: phone :: _ =>
      match book.find name with
      | none =>
          let book1 := book.add_record (Record.mk0 name)
          if phone ≠ "" then
            match mkPhone phone with
            | .error e => (book1, .error e)
            | .ok ph =>
                (book1.updateAt name (fun r => { r with phone := some ph }),
                 .ok ("Contact added."))
          else (book1, .ok ("Contact added."))
      | some _ =>
          if phone ≠ "" then
            match mkPhone phone with
            | .error e => (book, .error e)
            | .ok ph =>
                (book.updateAt name (fun r => { r with phone := some ph }),
                 .ok ("Contact updated."))
          else (book, .ok ("Contact updated."))
  | _ => (book, .error (.valueError ("Maybe you forgot enter name or phone?")))

/-- `ChangePhone.execute`: two explicit length checks, unpacking (which
raises on more than two arguments), find, `Phone.validate` before
`edit_phone`. -/
def changePhoneBody (args : List String) (book : AddressBook) : ExecRes :=
  match args with
  | [] => (book, .error (.valueError ("You did not enter the subscriber\x27s name!")))
  | [_] => (book, .error (.valueError ("You did not enter a new phone number!")))
  | [name, newPhone] =>
      match book.find name with
      | none => (book, .error .keyError)
      | some _ =>
          if Phone.validate newPhone then
            (book.updateAt name (fun r => { r with phone := some ⟨newPhone⟩ }),
             .ok ("Phone number updated."))
          else (book, .error (.valueError ("Phone number must be 10 digits.")))
  | _ :: _ :: _ :: _ =>
      (book, .error (.valueError ("too many values to unpack (expected 2)")))

/-- `GetPhone.execute`: `args[0]` raises `IndexError` on an empty list. -/
def getPhoneBody (args : List String) (book : AddressBook) : ExecRes :=
  match args with
  | [] => (book, .error .indexError)
  | name :: _ =>
      match book.find name with
      | none => (book, .error .keyError)
      | some r => (book, .ok (name ++ ": " ++ strOptPhone r.phone))

/-- `ShowAll.execute`. -/
def showAllBody (_args : List String) (book : AddressBook) : ExecRes :=
  (book, .ok (String.intercalate "\n" (book.values.map recordStr)))

/-- `AddBirthday.execute`: `name, birthday = args` raises `ValueError` on
any length other than two; the birthday is constructed before it is
assigned, so a validation failure leaves the record unchanged. -/
def addBirthdayBody (args : List String) (book : AddressBook) : ExecRes :=
  match args with
  | [] =>
      (book, .error (.valueError ("not enough values to unpack (expected 2, got 0)")))
  | [_] =>
      (book, .error (.valueError ("not enough values to unpack (expected 2, got 1)")))
  | [name, birthday] =>
      match book.find name with
      | none => (book, .error .keyError)
      | some _ =>
          match mkBirthday birthday with
          | .error e => (book, .error e)
          | .ok bd =>
              (book.updateAt name (fun r => { r with birthday := some bd }),
               .ok ("Birthday added."))
  | _ :: _ :: _ :: _ =>
      (book, .error (.valueError ("too many values to unpack (expected 2)")))

/-- `ShowBirthday.execute`. -/
def showBirthdayBody (args : List String) (book : AddressBook) : ExecRes :=
  match args with
  | [] => (book, .error .indexError)
  | name :: _ =>
      match book.find name with
      | none => (book, .error .keyError)
      | some r =>
          (book, .ok (name ++ ": " ++ (match r.birthday with
            | some b => b.value
            | none => "N/A")))

/-- `ShowBirthdays.execute` (fixed 7-day window). -/
def showBirthdaysBody (today : PyDate) (_args : List String)
    (book : AddressBook) : ExecRes :=
  match book.get_upcoming_birthdays today 7 with
  | .error e => (book, .error e)
  | .ok [] => (book, .error (.valueError ("No birthdays in the next week!")))
  | .ok l => (book, .ok (String.intercalate "\n" (l.map recordStr)))

/-- The closed set of commands registered in `main`. -/
inductive Cmd where
  | add | change | phone | all | addBirthday | showBirthday | birthdays
deriving DecidableEq, Repr

/-- Dispatch to the command body (`Command.execute` before decoration);
`today` is the clock `ShowBirthdays` reads. -/
def execBody (c : Cmd) (today : PyDate) (args : List String)
    (book : AddressBook) : ExecRes :=
  match c with
  | .add => addContactBody args book
  | .change => changePhoneBody args book
  | .phone => getPhoneBody args book
  | .all => showAllBody args book
  | .addBirthday => addBirthdayBody args book
  | .showBirthday => showBirthdayBody args book
  | .birthdays => showBirthdaysBody today args book

/-- The `input_error` decorator: `IndexError`, `KeyError` and `ValueError`
become message strings; any other exception would propagate unchanged. -/
def input_error (r : ExecRes) : ExecRes :=
  match r with
  | (b, .error .indexError) =>
      (b, .ok ("You haven\x27t entered a contact name or phone!"))
  | (b, .error .keyError) => (b, .ok ("Contact is not found!"))
  | (b, .error (.valueError s)) => (b, .ok s)
  | other => other

/-- A decorated command invocation, as the dispatch loop performs it. -/
def runC (c : Cmd) (today : PyDate) (args : List String)
    (book : AddressBook) : ExecRes :=
  input_error (execBody c today args book)

/-! ## General lemmas about the command machinery -/

theorem input_error_fst (r : ExecRes) : (input_error r).1 = r.1 := by
  rcases r with ⟨b, e⟩
  cases e with
  | ok m => rfl
  | error ex => cases ex <;> rfl

theorem mkPhone_shape (s : String) :
    mkPhone s = .ok ⟨s⟩ ∨
      mkPhone s = .error (.valueError ("Phone number must be 10 digits.")) := by
  unfold mkPhone
  split <;> simp

theorem mkBirthday_shape (s : String) :
    mkBirthday s = .ok ⟨s⟩ ∨
      mkBirthday s = .error (.valueError ("Invalid date format. Use DD.MM.YYYY")) := by
  unfold mkBirthday
  split <;> simp

theorem getPhoneBody_fst (args : List String) (book : AddressBook) :
    (getPhoneBody args book).1 = book := by
  rcases args with _ | ⟨n, t⟩
  · rfl
  · cases hf : book.find n <;> simp [getPhoneBody, hf]

theorem showBirthdayBody_fst (args : List String) (book : AddressBook) :
    (showBirthdayBody args book).1 = book := by
  rcases args with _ | ⟨n, t⟩
  · rfl
  · cases hf : book.find n <;> simp [showBirthdayBody, hf]

theorem showBirthdaysBody_fst (today : PyDate) (args : List String)
    (book : AddressBook) :
    (showBirthdaysBody today args book).1 = book := by
  cases h : book.get_upcoming_birthdays today 7 with
  | error e => simp [showBirthdaysBody, h]
  | ok l => cases l <;> simp [showBirthdaysBody, h]

/-! ## C7: Name validation -/

/-- C7 counterexample: constructing a `Name` from the empty string does NOT
fail — `Name` inherits the unvalidated `Field` constructor, so `Name("")`
yields a live instance wrapping the empty string. -/
theorem name_empty_accepted : mkName ("") = .ok ⟨""⟩ := rfl

/-- C7 (amended): `Name` performs no validation at all: construction from
any raw string, the empty string included, succeeds and yields a live
instance wrapping exactly that string. -/
theorem name_construction_never_fails (s : String) : mkName s = .ok ⟨s⟩ := rfl

/-! ## C2: Phone validation -/

/-- C2 counterexample: a string of ten ARABIC-INDIC digits (U+0660), none of
which is an ASCII decimal digit, is accepted by the `Phone` constructor,
because Python `str.isdigit` accepts all Unicode digits. -/
theorem phone_accepts_nonascii_digits :
    mkPhone ("٠٠٠٠٠٠٠٠٠٠") = .ok ⟨"٠٠٠٠٠٠٠٠٠٠"⟩ ∧
      ("٠٠٠٠٠٠٠٠٠٠" : String).data.all Char.isDigit = false := by
  constructor
  · rfl
  · decide

/-- C2 (amended): constructing a `PhoneNumber` succeeds iff the string has
exactly 10 characters, each of which is a Unicode digit in the sense of
Python `str.isdigit` — this includes every ASCII decimal digit, but also
non-ASCII digits such as U+0660; letters, punctuation and other lengths are
rejected. -/
theorem phone_accepts_iff_ten_unicode_digits (s : String) :
    mkPhone s = .ok ⟨s⟩ ↔
      (s.length = 10 ∧ s.data.all pyIsDigitChar = true) := by
  have hlen : s.length = s.data.length := rfl
  unfold mkPhone
  split
  next hv =>
    unfold Phone.validate pyStrIsDigit at hv
    simp only [Bool.and_eq_true, beq_iff_eq] at hv
    simp [hv.1.2, hv.2]
  next hv =>
    constructor
    · intro h; exact absurd h (by simp)
    · rintro ⟨h10, hall⟩
      exfalso
      apply hv
      unfold Phone.validate pyStrIsDigit
      have hne : s.data.isEmpty = false := by
        rw [hlen] at h10
        cases hd : s.data with
        | nil => rw [hd] at h10; simp at h10
        | cons a t => rfl
      simp [hne, hall, h10]

/-! ## C10: Get Phone on a record with no phone -/

/-- C10: when the book has a record for `name` whose phone is unset,
`GetPhone` succeeds and renders the absent phone as the text `None`. -/
theorem getPhone_renders_none (book : AddressBook) (name : String)
    (today : PyDate) (r : Record) (hf : book.find name = some r)
    (hp : r.phone = none) :
    runC .phone today [name] book = (book, .ok (name ++ ": " ++ "None")) := by
  have hb : getPhoneBody [name] book =
      (book, .ok (name ++ ": " ++ strOptPhone r.phone)) := by
    simp only [getPhoneBody, hf]
  show input_error (getPhoneBody [name] book) = _
  rw [hb, hp]
  rfl

/-- C10 witness at a concrete book. -/
theorem getPhone_renders_none_witness :
    runC .phone ⟨2024, 1, 1⟩ ["Alice"] ⟨[("Alice", ⟨⟨"Alice"⟩, none, none⟩)]⟩ =
      (⟨[("Alice", ⟨⟨"Alice"⟩, none, none⟩)]⟩, .ok ("Alice: None")) := by
  have := getPhone_renders_none ⟨[("Alice", ⟨⟨"Alice"⟩, none, none⟩)]⟩ ("Alice")
    ⟨2024, 1, 1⟩ ⟨⟨"Alice"⟩, none, none⟩ (by rfl) rfl
  simpa using this

/-! ## C9: query commands do not mutate the book -/

/-- C9: `GetPhone`, `ShowAll`, `ShowBirthday` and `ShowBirthdays` leave the
book exactly as it was, for every argument list and book, whether they
succeed or report an error. -/
theorem query_commands_no_mutation (args : List String) (book : AddressBook)
    (today : PyDate) :
    (runC .phone today args book).1 = book ∧
    (runC .all today args book).1 = book ∧
    (runC .showBirthday today args book).1 = book ∧
    (runC .birthdays today args book).1 = book := by
  refine ⟨?_, ?_, ?_, ?_⟩ <;> rw [runC, input_error_fst]
  · exact getPhoneBody_fst args book
  · rfl
  · exact showBirthdayBody_fst args book
  · exact showBirthdaysBody_fst today args book

/-! ## C6: every command returns a displayable message -/

theorem upcomingGo_error_shape (today : PyDate) (days : Nat)
    (l : List Record) (e : PyExc)
    (h : upcomingGo today days l = .error e) : ∃ s, e = .valueError s := by
  induction l with
  | nil => simp [upcomingGo] at h
  | cons r rest ih =>
    cases hb : r.birthday with
    | none => simp only [upcomingGo, hb] at h; exact ih h
    | some bd =>
      simp only [upcomingGo, hb] at h
      cases hs : string_to_date bd.value with
      | none =>
        simp only [hs] at h
        exact ⟨_, (Except.error.inj h).symm⟩
      | some b =>
        simp only [hs] at h
        cases ha : replaceYear b today.year with
        | none =>
          simp only [ha] at h
          exact ⟨_, (Except.error.inj h).symm⟩
        | some a =>
          simp only [ha] at h
          split at h
          · cases hrec : upcomingGo today days rest with
            | error e2 =>
              rw [hrec] at h
              simp only [Except.map] at h
              cases h
              exact ih hrec
            | ok l2 => rw [hrec] at h; simp [Except.map] at h
          · exact ih h

theorem addContactBody_exc (args : List String) (book : AddressBook)
    (s : String) : (addContactBody args book).2 ≠ .error (.otherExc s) := by
  rcases args with _ | ⟨a, _ | ⟨b, t⟩⟩
  · simp [addContactBody]
  · simp [addContactBody]
  · cases hf : book.find a with
    | none =>
      by_cases hb : b = ""
      · simp [addContactBody, hf, hb]
      · rcases mkPhone_shape b with hm | hm <;>
          simp [addContactBody, hf, hb, hm]
    | some r =>
      by_cases hb : b = ""
      · simp [addContactBody, hf, hb]
      · rcases mkPhone_shape b with hm | hm <;>
          simp [addContactBody, hf, hb, hm]

theorem changePhoneBody_exc (args : List String) (book : AddressBook)
    (s : String) : (changePhoneBody args book).2 ≠ .error (.otherExc s) := by
  rcases args with _ | ⟨a, _ | ⟨b, _ | ⟨c, t⟩⟩⟩
  · simp [changePhoneBody]
  · simp [changePhoneBody]
  · cases hf : book.find a with
    | none => simp [changePhoneBody, hf]
    | some r =>
      by_cases hv : Phone.validate b = true <;> simp [changePhoneBody, hf, hv]
  · simp [changePhoneBody]

theorem getPhoneBody_exc (args : List String) (book : AddressBook)
    (s : String) : (getPhoneBody args book).2 ≠ .error (.otherExc s) := by
  rcases args with _ | ⟨a, t⟩
  · simp [getPhoneBody]
  · cases hf : book.find a <;> simp [getPhoneBody, hf]

theorem addBirthdayBody_exc (args : List String) (book : AddressBook)
    (s : String) : (addBirthdayBody args book).2 ≠ .error (.otherExc s) := by
  rcases args with _ | ⟨a, _ | ⟨b, _ | ⟨c, t⟩⟩⟩
  · simp [addBirthdayBody]
  · simp [addBirthdayBody]
  · cases hf : book.find a with
    | none => simp [addBirthdayBody, hf]
    | some r =>
      rcases mkBirthday_shape b with hm | hm <;> simp [addBirthdayBody, hf, hm]
  · simp [addBirthdayBody]

theorem showBirthdayBody_exc (args : List String) (book : AddressBook)
    (s : String) : (showBirthdayBody args book).2 ≠ .error (.otherExc s) := by
  rcases args with _ | ⟨a, t⟩
  · simp [showBirthdayBody]
  · cases hf : book.find a <;> simp [showBirthdayBody, hf]

theorem showBirthdaysBody_exc (today : PyDate) (args : List String)
    (book : AddressBook) (s : String) :
    (showBirthdaysBody today args book).2 ≠ .error (.otherExc s) := by
  cases h : book.get_upcoming_birthdays today 7 with
  | error e =>
    obtain ⟨s2, hs2⟩ := upcomingGo_error_shape today 7 book.values e h
    simp [showBirthdaysBody, h, hs2]
  | ok l => cases l <;> simp [showBirthdaysBody, h]

/-- C6: for every command, argument list, book and clock value, the
decorated execution produces an ordinary message string — `IndexError`,
`KeyError` and `ValueError` (the argument/not-found/validation/empty-result
conditions) are all converted by `input_error`, and no other exception is
ever raised, so nothing escapes to the dispatch loop. -/
theorem commands_always_return_message (c : Cmd) (today : PyDate)
    (args : List String) (book : AddressBook) :
    ∃ msg book2, runC c today args book = (book2, .ok msg) := by
  have hne : ∀ s, (execBody c today args book).2 ≠ .error (.otherExc s) := by
    intro s
    cases c
    · exact addContactBody_exc args book s
    · exact changePhoneBody_exc args book s
    · exact getPhoneBody_exc args book s
    · simp [execBody, showAllBody]
    · exact addBirthdayBody_exc args book s
    · exact showBirthdayBody_exc args book s
    · exact showBirthdaysBody_exc today args book s
  show ∃ msg book2, input_error (execBody c today args book) = (book2, .ok msg)
  rcases hb : execBody c today args book with ⟨b2, e⟩
  cases e with
  | ok m => exact ⟨m, b2, rfl⟩
  | error ex =>
    cases ex with
    | indexError => exact ⟨_, b2, rfl⟩
    | keyError => exact ⟨_, b2, rfl⟩
    | valueError s => exact ⟨s, b2, rfl⟩
    | otherExc s =>
      exact absurd (by rw [hb]) (hne s)

/-! ## C8: Add Contact on an existing record replaces only the phone -/

theorem find_updateAt (l : List (String × Record)) (key : String)
    (f : Record → Record) :
    (AddressBook.updateAt ⟨l⟩ key f).find key =
      ((AddressBook.find ⟨l⟩ key).map f) := by
  simp only [AddressBook.updateAt, AddressBook.find]
  induction l with
  | nil => rfl
  | cons e t ih =>
    rw [List.map_cons]
    cases hbe : (e.1 == key) with
    | true =>
      rw [if_pos (rfl : (true : Bool) = true)]
      rw [@List.find?_cons_of_pos _ (fun x => x.1 == key) (e.1, f e.2) _ hbe,
        @List.find?_cons_of_pos _ (fun x => x.1 == key) e _ hbe]
      rfl
    | false =>
      rw [if_neg (by simp : ¬((false : Bool) = true))]
      rw [@List.find?_cons_of_neg _ (fun x => x.1 == key) e _ (by simp [hbe]),
        @List.find?_cons_of_neg _ (fun x => x.1 == key) e _ (by simp [hbe])]
      exact ih

theorem countKey_updateAt (l : List (String × Record)) (key k : String)
    (f : Record → Record) :
    (AddressBook.updateAt ⟨l⟩ key f).countKey k =
      (AddressBook.countKey ⟨l⟩ k) := by
  simp only [AddressBook.updateAt, AddressBook.countKey]
  induction l with
  | nil => rfl
  | cons e t ih =>
    rw [List.map_cons]
    cases hbe : (e.1 == key) with
    | true =>
      rw [if_pos (rfl : (true : Bool) = true), List.filter_cons,
        List.filter_cons]
      have hpair : (((e.1, f e.2).1 == k)) = (e.1 == k) := rfl
      rw [hpair]
      by_cases hk : (e.1 == k) = true
      · rw [if_pos hk, if_pos hk, List.length_cons, List.length_cons, ih]
      · rw [if_neg hk, if_neg hk, ih]
    | false =>
      rw [if_neg (by simp : ¬((false : Bool) = true)), List.filter_cons,
        List.filter_cons]
      by_cases hk : (e.1 == k) = true
      · rw [if_pos hk, if_pos hk, List.length_cons, List.length_cons, ih]
      · rw [if_neg hk, if_neg hk, ih]

/-- C8: when the book already has a record for `name` (with a birthday set)
and the new phone is valid, Add Contact replaces only the phone of that
record: it answers "Contact updated.", the stored birthday (and name field)
are unchanged, and the book still has exactly one entry for `name`. -/
theorem addContact_existing_preserves_birthday
    (book : AddressBook) (name p : String) (today : PyDate)
    (r : Record) (bd : Birthday)
    (hf : book.find name = some r) (hb : r.birthday = some bd)
    (hv : Phone.validate p = true) (hc : book.countKey name = 1) :
    ∃ book2,
      runC .add today [name, p] book = (book2, .ok ("Contact updated.")) ∧
      book2.find name = some ⟨r.name, some ⟨p⟩, some bd⟩ ∧
      book2.countKey name = 1 := by
  have hpne : p ≠ "" := by
    intro he
    rw [he] at hv
    exact absurd hv (by decide)
  have hmk : mkPhone p = .ok ⟨p⟩ := by simp [mkPhone, hv]
  have hbody : addContactBody [name, p] book =
      (book.updateAt name (fun r0 => { r0 with phone := some ⟨p⟩ }),
        .ok ("Contact updated.")) := by
    simp only [addContactBody, hf]
    rw [if_pos hpne]
    simp only [hmk]
  refine ⟨book.updateAt name (fun r0 => { r0 with phone := some ⟨p⟩ }),
    ?_, ?_, ?_⟩
  · show input_error (addContactBody [name, p] book) = _
    rw [hbody]
    rfl
  · rcases book with ⟨l⟩
    rw [find_updateAt, hf]
    rcases r with ⟨n0, p0, b0⟩
    simp only [Record.birthday] at hb
    rw [hb]
    rfl
  · rcases book with ⟨l⟩
    rw [countKey_updateAt]
    exact hc

/-- C8 witness at a concrete book. -/
theorem addContact_existing_preserves_birthday_witness :
    ∃ book2,
      runC .add ⟨2024, 1, 1⟩ ["Alice", "9876543210"]
          ⟨[("Alice", ⟨⟨"Alice"⟩, some ⟨"0123456789"⟩, some ⟨"12.06.1990"⟩⟩)]⟩ =
        (book2, .ok ("Contact updated.")) ∧
      book2.find ("Alice") =
        some ⟨⟨"Alice"⟩, some ⟨"9876543210"⟩, some ⟨"12.06.1990"⟩⟩ ∧
      book2.countKey ("Alice") = 1 :=
  addContact_existing_preserves_birthday
    ⟨[("Alice", ⟨⟨"Alice"⟩, some ⟨"0123456789"⟩, some ⟨"12.06.1990"⟩⟩)]⟩
    ("Alice") ("9876543210") ⟨2024, 1, 1⟩
    ⟨⟨"Alice"⟩, some ⟨"0123456789"⟩, some ⟨"12.06.1990"⟩⟩ ⟨"12.06.1990"⟩
    (by rfl) rfl (by decide) (by rfl)

/-! ## C1: failed commands and partial mutation -/

theorem mkPhone_error_validate (s : String) (ex : PyExc)
    (h : mkPhone s = .error ex) : Phone.validate s = false := by
  unfold mkPhone at h
  split at h
  · exact absurd h (by simp)
  next hv => exact Bool.eq_false_iff.mpr hv

/-- C1 counterexample: invoking Add Contact on the empty book with the new
name Alice and the invalid phone "123" reports the validation error, yet
afterwards the book DOES have a record for Alice (with no phone): the
record is inserted before the phone is validated. -/
theorem addContact_failure_leaves_record :
    ((runC .add ⟨2024, 1, 1⟩ ["Alice", "123"] ⟨[]⟩).1).find ("Alice") =
        some ⟨⟨"Alice"⟩, none, none⟩ ∧
      (runC .add ⟨2024, 1, 1⟩ ["Alice", "123"] ⟨[]⟩).2 =
        .ok ("Phone number must be 10 digits.") := by
  constructor <;> rfl

/-- C1 (amended): a command invocation that raises (and hence reports an
error message) leaves the book unchanged, EXCEPT Add Contact invoked with a
name not in the book and a non-empty invalid phone: there the new record is
inserted before phone validation, so the failed call leaves a record for
that name (with no phone and no birthday) in the book. -/
theorem failing_command_mutation (c : Cmd) (today : PyDate)
    (args : List String) (book b2 : AddressBook) (e : PyExc)
    (h : execBody c today args book = (b2, .error e)) :
    b2 = book ∨
      (c = .add ∧ ∃ name phone rest, args = name :: phone :: rest ∧
        book.find name = none ∧ phone ≠ "" ∧ Phone.validate phone = false ∧
        b2 = book.add_record (Record.mk0 name) ∧
        e = .valueError ("Phone number must be 10 digits.")) := by
  cases c
  case add =>
    rcases args with _ | ⟨a, _ | ⟨b, t⟩⟩
    · simp [execBody, addContactBody] at h
      exact Or.inl h.1.symm
    · simp [execBody, addContactBody] at h
      exact Or.inl h.1.symm
    · replace h : addContactBody (a :: b :: t) book = (b2, .error e) := h
      cases hf : book.find a with
      | none =>
        by_cases hb : b = ""
        · simp [addContactBody, hf, hb] at h
        · rcases mkPhone_shape b with hm | hm
          · simp [addContactBody, hf, hb, hm] at h
          · simp only [addContactBody, hf] at h
            rw [if_pos hb] at h
            simp only [hm] at h
            simp only [Prod.mk.injEq, Except.error.injEq] at h
            refine Or.inr ⟨rfl, a, b, t, rfl, hf, hb,
              mkPhone_error_validate b _ hm, h.1.symm, h.2.symm⟩
      | some r =>
        by_cases hb : b = ""
        · simp [addContactBody, hf, hb] at h
        · rcases mkPhone_shape b with hm | hm
          · simp [addContactBody, hf, hb, hm] at h
          · simp only [addContactBody, hf] at h
            rw [if_pos hb] at h
            simp only [hm] at h
            simp only [Prod.mk.injEq, Except.error.injEq] at h
            exact Or.inl h.1.symm
  case change =>
    rcases args with _ | ⟨a, _ | ⟨b, _ | ⟨c2, t⟩⟩⟩
    · simp [execBody, changePhoneBody] at h
      exact Or.inl h.1.symm
    · simp [execBody, changePhoneBody] at h
      exact Or.inl h.1.symm
    · replace h : changePhoneBody [a, b] book = (b2, .error e) := h
      cases hf : book.find a with
      | none =>
        simp [changePhoneBody, hf] at h
        exact Or.inl h.1.symm
      | some r =>
        by_cases hv : Phone.validate b = true
        · simp [changePhoneBody, hf, hv] at h
        · simp [changePhoneBody, hf, hv] at h
          exact Or.inl h.1.symm
    · simp [execBody, changePhoneBody] at h
      exact Or.inl h.1.symm
  case phone =>
    rcases args with _ | ⟨a, t⟩
    · simp [execBody, getPhoneBody] at h
      exact Or.inl h.1.symm
    · cases hf : book.find a with
      | none =>
        simp [execBody, getPhoneBody, hf] at h
        exact Or.inl h.1.symm
      | some r => simp [execBody, getPhoneBody, hf] at h
  case all => simp [execBody, showAllBody] at h
  case addBirthday =>
    rcases args with _ | ⟨a, _ | ⟨b, _ | ⟨c2, t⟩⟩⟩
    · simp [execBody, addBirthdayBody] at h
      exact Or.inl h.1.symm
    · simp [execBody, addBirthdayBody] at h
      exact Or.inl h.1.symm
    · replace h : addBirthdayBody [a, b] book = (b2, .error e) := h
      cases hf : book.find a with
      | none =>
        simp [addBirthdayBody, hf] at h
        exact Or.inl h.1.symm
      | some r =>
        rcases mkBirthday_shape b with hm | hm
        · simp [addBirthdayBody, hf, hm] at h
        · simp [addBirthdayBody, hf, hm] at h
          exact Or.inl h.1.symm
    · simp [execBody, addBirthdayBody] at h
      exact Or.inl h.1.symm
  case showBirthday =>
    rcases args with _ | ⟨a, t⟩
    · simp [execBody, showBirthdayBody] at h
      exact Or.inl h.1.symm
    · cases hf : book.find a with
      | none =>
        simp [execBody, showBirthdayBody, hf] at h
        exact Or.inl h.1.symm
      | some r => simp [execBody, showBirthdayBody, hf] at h
  case birthdays =>
    replace h : showBirthdaysBody today args book = (b2, .error e) := h
    cases hq : book.get_upcoming_birthdays today 7 with
    | error e2 =>
      simp [showBirthdaysBody, hq] at h
      exact Or.inl h.1.symm
    | ok l =>
      cases l with
      | nil =>
        simp [showBirthdaysBody, hq] at h
        exact Or.inl h.1.symm
      | cons x xs => simp [showBirthdaysBody, hq] at h

/-- C1 witness: the amended characterization applied to the concrete failed
Add Contact call from the counterexample. -/
theorem failing_command_mutation_witness :
    (AddressBook.mk [("Alice", ⟨⟨"Alice"⟩, none, none⟩)]) = ⟨[]⟩ ∨
      (Cmd.add = Cmd.add ∧ ∃ name phone rest,
        ["Alice", "123"] = name :: phone :: rest ∧
        (AddressBook.mk []).find name = none ∧ phone ≠ "" ∧
        Phone.validate phone = false ∧
        (AddressBook.mk [("Alice", ⟨⟨"Alice"⟩, none, none⟩)]) =
          (AddressBook.mk []).add_record (Record.mk0 name) ∧
        PyExc.valueError ("Phone number must be 10 digits.") =
          .valueError ("Phone number must be 10 digits.")) :=
  failing_command_mutation .add ⟨2024, 1, 1⟩ ["Alice", "123"] ⟨[]⟩
    ⟨[("Alice", ⟨⟨"Alice"⟩, none, none⟩)]⟩
    (.valueError ("Phone number must be 10 digits.")) (by rfl)

/-! ## C3, C4: the birthday window query -/

theorem upcomingGo_ok_filter (today : PyDate) (days : Nat) (l : List Record)
    (res : List Record) (h : upcomingGo today days l = .ok res) :
    res = l.filter (inWindow today days) := by
  induction l generalizing res with
  | nil =>
    simp only [upcomingGo] at h
    cases h
    rfl
  | cons r rest ih =>
    cases hb : r.birthday with
    | none =>
      simp only [upcomingGo, hb] at h
      have hw : inWindow today days r = false := by simp [inWindow, hb]
      rw [List.filter_cons, hw]
      simpa using ih _ h
    | some bd =>
      simp only [upcomingGo, hb] at h
      cases hs : string_to_date bd.value with
      | none =>
        simp only [hs] at h
        exact absurd h (by simp)
      | some b =>
        simp only [hs] at h
        cases ha : replaceYear b today.year with
        | none =>
          simp only [ha] at h
          exact absurd h (by simp)
        | some a =>
          simp only [ha] at h
          have hw : inWindow today days r =
              (dateLe today a && dateLe a (addDays today days)) := by
            simp [inWindow, hb, hs, ha]
          by_cases hcond :
              (dateLe today a && dateLe a (addDays today days)) = true
          · rw [if_pos hcond] at h
            cases hrec : upcomingGo today days rest with
            | error e2 => rw [hrec] at h; simp [Except.map] at h
            | ok l2 =>
              rw [hrec] at h
              simp only [Except.map] at h
              cases h
              rw [List.filter_cons, hw, if_pos hcond]
              rw [ih _ hrec]
          · rw [if_neg hcond] at h
            have hwf : inWindow today days r = false := by
              rw [hw]
              exact Bool.eq_false_iff.mpr hcond
            rw [List.filter_cons, hwf]
            simpa using ih _ h

/-- C3: whenever the query succeeds, a record of the book that has a
birthday is in the result exactly when its birthday, re-anchored to the
current year, lies between `today` and `today + days`, both ends
included. -/
theorem upcoming_birthdays_window_iff (book : AddressBook) (today : PyDate)
    (days : Nat) (l : List Record)
    (h : book.get_upcoming_birthdays today days = .ok l)
    (r : Record) (hr : r ∈ book.values) (bd : Birthday)
    (hb : r.birthday = some bd) (b a : PyDate)
    (hs : string_to_date bd.value = some b)
    (ha : replaceYear b today.year = some a) :
    r ∈ l ↔
      (dateLe today a = true ∧ dateLe a (addDays today days) = true) := by
  have hfilter := upcomingGo_ok_filter today days book.values l h
  subst hfilter
  rw [List.mem_filter]
  have hw : inWindow today days r =
      (dateLe today a && dateLe a (addDays today days)) := by
    simp [inWindow, hb, hs, ha]
  constructor
  · rintro ⟨-, hwin⟩
    rw [hw] at hwin
    simpa [Bool.and_eq_true] using hwin
  · rintro ⟨h1, h2⟩
    refine ⟨hr, ?_⟩
    rw [hw]
    simp [h1, h2]

/-- C3 witness: today = 10.06.2024, 7-day window; birthday 12.06.1990
qualifies while 20.06.1990 and 05.06.1990 do not. -/
theorem upcoming_birthdays_window_iff_witness :
    (dateLe ⟨2024, 6, 10⟩ ⟨2024, 6, 12⟩ = true ∧
      dateLe ⟨2024, 6, 12⟩ (addDays ⟨2024, 6, 10⟩ 7) = true) ∧
    (⟨⟨"Bob"⟩, none, some ⟨"20.06.1990"⟩⟩ : Record) ∉
      ([⟨⟨"Alice"⟩, none, some ⟨"12.06.1990"⟩⟩] : List Record) ∧
    (⟨⟨"Carol"⟩, none, some ⟨"05.06.1990"⟩⟩ : Record) ∉
      ([⟨⟨"Alice"⟩, none, some ⟨"12.06.1990"⟩⟩] : List Record) := by
  refine ⟨?_, ?_, ?_⟩
  · exact (upcoming_birthdays_window_iff
      ⟨[("Alice", ⟨⟨"Alice"⟩, none, some ⟨"12.06.1990"⟩⟩),
        ("Bob", ⟨⟨"Bob"⟩, none, some ⟨"20.06.1990"⟩⟩),
        ("Carol", ⟨⟨"Carol"⟩, none, some ⟨"05.06.1990"⟩⟩)]⟩
      ⟨2024, 6, 10⟩ 7 [⟨⟨"Alice"⟩, none, some ⟨"12.06.1990"⟩⟩] (by rfl)
      ⟨⟨"Alice"⟩, none, some ⟨"12.06.1990"⟩⟩ (by simp [AddressBook.values])
      ⟨"12.06.1990"⟩ rfl ⟨1990, 6, 12⟩ ⟨2024, 6, 12⟩ (by rfl) (by rfl)).mp
      (by simp)
  · intro hmem
    exact absurd ((upcoming_birthdays_window_iff
      ⟨[("Alice", ⟨⟨"Alice"⟩, none, some ⟨"12.06.1990"⟩⟩),
        ("Bob", ⟨⟨"Bob"⟩, none, some ⟨"20.06.1990"⟩⟩),
        ("Carol", ⟨⟨"Carol"⟩, none, some ⟨"05.06.1990"⟩⟩)]⟩
      ⟨2024, 6, 10⟩ 7 [⟨⟨"Alice"⟩, none, some ⟨"12.06.1990"⟩⟩] (by rfl)
      ⟨⟨"Bob"⟩, none, some ⟨"20.06.1990"⟩⟩ (by simp [AddressBook.values])
      ⟨"20.06.1990"⟩ rfl ⟨1990, 6, 20⟩ ⟨2024, 6, 20⟩ (by rfl) (by rfl)).mp
      hmem).2 (by decide)
  · intro hmem
    exact absurd ((upcoming_birthdays_window_iff
      ⟨[("Alice", ⟨⟨"Alice"⟩, none, some ⟨"12.06.1990"⟩⟩),
        ("Bob", ⟨⟨"Bob"⟩, none, some ⟨"20.06.1990"⟩⟩),
        ("Carol", ⟨⟨"Carol"⟩, none, some ⟨"05.06.1990"⟩⟩)]⟩
      ⟨2024, 6, 10⟩ 7 [⟨⟨"Alice"⟩, none, some ⟨"12.06.1990"⟩⟩] (by rfl)
      ⟨⟨"Carol"⟩, none, some ⟨"05.06.1990"⟩⟩ (by simp [AddressBook.values])
      ⟨"05.06.1990"⟩ rfl ⟨1990, 6, 5⟩ ⟨2024, 6, 5⟩ (by rfl) (by rfl)).mp
      hmem).1 (by decide)

/-- C4: a birthday of January 2 is never returned by a query run on
December 29 of any year, despite lying within the 7-day window, because the
anchor always uses the current year. -/
theorem upcoming_birthdays_cross_year_miss (book : AddressBook) (y : Nat)
    (l : List Record) (h : book.get_upcoming_birthdays ⟨y, 12, 29⟩ 7 = .ok l)
    (r : Record) (bd : Birthday) (hb : r.birthday = some bd) (b : PyDate)
    (hs : string_to_date bd.value = some b) (hm : b.month = 1)
    (hd : b.day = 2) : r ∉ l := by
  have hfilter := upcomingGo_ok_filter _ _ _ _ h
  subst hfilter
  intro hmem
  rw [List.mem_filter] at hmem
  rcases hmem with ⟨-, hwin⟩
  simp only [inWindow, hb, hs] at hwin
  cases ha : replaceYear b y with
  | none => rw [ha] at hwin; simp at hwin
  | some a =>
    rw [ha] at hwin
    have haa : a = ⟨y, 1, 2⟩ := by
      unfold replaceYear at ha
      split at ha
      · cases ha
        rw [hm, hd]
      · exact absurd ha (by simp)
    subst haa
    have hfalse : dateLe ⟨y, 12, 29⟩ ⟨y, 1, 2⟩ = false := by
      simp [dateLe]
    rw [Bool.and_eq_true, hfalse] at hwin
    exact absurd hwin.1 (by simp)

/-- C4 witness: today = 29.12.2024, birthday 02.01.1990 is not returned. -/
theorem upcoming_birthdays_cross_year_miss_witness :
    (⟨⟨"Dan"⟩, none, some ⟨"02.01.1990"⟩⟩ : Record) ∉ ([] : List Record) :=
  upcoming_birthdays_cross_year_miss
    ⟨[("Dan", ⟨⟨"Dan"⟩, none, some ⟨"02.01.1990"⟩⟩)]⟩ 2024 [] (by rfl)
    ⟨⟨"Dan"⟩, none, some ⟨"02.01.1990"⟩⟩ ⟨"02.01.1990"⟩ rfl
    ⟨1990, 1, 2⟩ (by rfl) rfl rfl

/-! ## C5: Birthday validation versus the spec's format description -/

/-- `int()` of a digit string, digits valued by `pyDecimalVal`. -/
def pyValList (cs : List Char) : Nat :=
  cs.foldl (fun a c => 10 * a + ((pyDecimalVal c).getD 0)) 0

/-- `int()` of an ASCII digit string. -/
def digitsVal (cs : List Char) : Nat :=
  cs.foldl (fun a c => 10 * a + (c.toNat - 48)) 0

/-- Spec-side acceptance predicate for `BirthdayDate`, written from the
amended claim's words: the string is day `.` month `.` year with a 1- or
2-digit day, a 1- or 2-digit month, an exactly 4-digit year, all ASCII
digits, and the three numbers denote a real calendar date. -/
def birthdaySpecAccepts (cs : List Char) : Prop :=
  ∃ dcs mcs ycs : List Char,
    cs = dcs ++ '.' :: (mcs ++ '.' :: ycs) ∧
    (∀ c ∈ dcs, 48 ≤ c.toNat ∧ c.toNat ≤ 57) ∧
    (∀ c ∈ mcs, 48 ≤ c.toNat ∧ c.toNat ≤ 57) ∧
    (∀ c ∈ ycs, 48 ≤ c.toNat ∧ c.toNat ≤ 57) ∧
    1 ≤ dcs.length ∧ dcs.length ≤ 2 ∧
    1 ≤ mcs.length ∧ mcs.length ≤ 2 ∧ ycs.length = 4 ∧
    isRealDate (digitsVal ycs) (digitsVal mcs) (digitsVal dcs) = true

theorem char_eq_of_toNat_eq {c d : Char} (h : c.toNat = d.toNat) : c = d :=
  Char.ext (UInt32.ext (by simpa [Char.toNat] using h))

theorem find?_none_of_large (n : Nat) (l : List Nat)
    (hl : ∀ s ∈ l, 128 ≤ s) (hn : n < 128) :
    l.find? (fun s => decide (s ≤ n) && decide (n < s + 10)) = none := by
  induction l with
  | nil => rfl
  | cons s t ih =>
    have hs := hl s (by simp)
    rw [@List.find?_cons_of_neg _
      (fun s => decide (s ≤ n) && decide (n < s + 10)) s _ (by simp; omega)]
    exact ih (fun x hx => hl x (by simp [hx]))

theorem decStarts_head : decStarts = 48 :: decStarts.tail := rfl

theorem decStarts_tail_large : ∀ s ∈ decStarts.tail, 128 ≤ s := by decide

theorem pyDecimalVal_ascii (c : Char) (h : c.toNat < 128) :
    pyDecimalVal c =
      if 48 ≤ c.toNat ∧ c.toNat ≤ 57 then some (c.toNat - 48) else none := by
  unfold pyDecimalVal
  rw [decStarts_head]
  by_cases hd : 48 ≤ c.toNat ∧ c.toNat ≤ 57
  · rw [@List.find?_cons_of_pos _
      (fun s => decide (s ≤ c.toNat) && decide (c.toNat < s + 10)) 48 _
      (by simp; omega)]
    rw [if_pos hd]
    rfl
  · rw [@List.find?_cons_of_neg _
      (fun s => decide (s ≤ c.toNat) && decide (c.toNat < s + 10)) 48 _
      (by simp; omega)]
    rw [find?_none_of_large _ _ decStarts_tail_large h, if_neg hd]
    rfl

theorem pyDecimalVal_of_digit (c : Char)
    (h : 48 ≤ c.toNat ∧ c.toNat ≤ 57) :
    pyDecimalVal c = some (c.toNat - 48) := by
  rw [pyDecimalVal_ascii c (by omega), if_pos h]

theorem digit_of_pyDecimalVal_ascii (c : Char) (hc : c.toNat < 128)
    (h : (pyDecimalVal c).isSome = true) :
    48 ≤ c.toNat ∧ c.toNat ≤ 57 := by
  rw [pyDecimalVal_ascii c hc] at h
  by_cases hd : 48 ≤ c.toNat ∧ c.toNat ≤ 57
  · exact hd
  · rw [if_neg hd] at h
    simp at h

theorem dot_not_decimal : pyDecimalVal '.' = none := by decide

theorem pyValList_ascii_aux (cs : List Char)
    (h : ∀ c ∈ cs, 48 ≤ c.toNat ∧ c.toNat ≤ 57) (a : Nat) :
    cs.foldl (fun x c => 10 * x + ((pyDecimalVal c).getD 0)) a =
      cs.foldl (fun x c => 10 * x + (c.toNat - 48)) a := by
  induction cs generalizing a with
  | nil => rfl
  | cons c t ih =>
    rw [List.foldl_cons, List.foldl_cons,
      pyDecimalVal_of_digit c (h c (by simp))]
    exact ih (fun d hd => h d (by simp [hd])) _

theorem pyValList_ascii (cs : List Char)
    (h : ∀ c ∈ cs, 48 ≤ c.toNat ∧ c.toNat ≤ 57) :
    pyValList cs = digitsVal cs :=
  pyValList_ascii_aux cs h 0

theorem pyValList_one (a : Char) :
    pyValList [a] = (pyDecimalVal a).getD 0 := by
  simp [pyValList]

theorem pyValList_two (a c : Char) :
    pyValList [a, c] =
      10 * ((pyDecimalVal a).getD 0) + ((pyDecimalVal c).getD 0) := by
  simp [pyValList]

theorem dayAlt1_eq (a c : Char) (r : List Char) :
    dayAlt1 (a :: c :: r) =
      if a.toNat = 51 then
        if c.toNat = 48 then some (30, r)
        else if c.toNat = 49 then some (31, r)
        else none
      else none := rfl

theorem dayAlt2_eq (a c : Char) (r : List Char) :
    dayAlt2 (a :: c :: r) =
      if a.toNat = 49 || a.toNat = 50 then
        (pyDecimalVal c).map
          (fun v => ((if a.toNat = 49 then 10 else 20) + v, r))
      else none := rfl

theorem dayAlt3_eq (a c : Char) (r : List Char) :
    dayAlt3 (a :: c :: r) =
      if a.toNat = 48 && (49 ≤ c.toNat && c.toNat ≤ 57) then
        some (c.toNat - 48, r)
      else none := rfl

theorem dayAlt4_eq (c : Char) (r : List Char) :
    dayAlt4 (c :: r) =
      if 49 ≤ c.toNat && c.toNat ≤ 57 then some (c.toNat - 48, r)
      else none := rfl

theorem dayAlt1_short (cs : List Char) (h : cs.length ≤ 1) :
    dayAlt1 cs = none := by
  rcases cs with _ | ⟨a, _ | ⟨c, r⟩⟩ <;> first | rfl | simp at h

theorem dayAlt2_short (cs : List Char) (h : cs.length ≤ 1) :
    dayAlt2 cs = none := by
  rcases cs with _ | ⟨a, _ | ⟨c, r⟩⟩ <;> first | rfl | simp at h

theorem dayAlt3_short (cs : List Char) (h : cs.length ≤ 1) :
    dayAlt3 cs = none := by
  rcases cs with _ | ⟨a, _ | ⟨c, r⟩⟩ <;> first | rfl | simp at h

theorem dayAlt1_sound (cs : List Char) (v : Nat) (r : List Char)
    (h : dayAlt1 cs = some (v, r)) :
    ∃ pre, cs = pre ++ r ∧ 1 ≤ pre.length ∧ pre.length ≤ 2 ∧
      (∀ c ∈ pre, (pyDecimalVal c).isSome = true) ∧ v = pyValList pre := by
  rcases cs with _ | ⟨a, _ | ⟨c, rest⟩⟩
  · exact Option.noConfusion h
  · rw [dayAlt1_short _ (by simp)] at h; simp at h
  · rw [dayAlt1_eq] at h
    split at h
    next ha =>
      have hda := pyDecimalVal_of_digit a (by omega)
      split at h
      next hc =>
        have hdc := pyDecimalVal_of_digit c (by omega)
        simp only [Option.some.injEq, Prod.mk.injEq] at h
        refine ⟨[a, c], by simp [h.2], by simp, by simp, ?_, ?_⟩
        · intro x hx
          rcases List.mem_pair.mp hx with rfl | rfl
          · rw [hda]; rfl
          · rw [hdc]; rfl
        · rw [pyValList_two, hda, hdc]
          simp only [Option.getD_some]
          omega
      next =>
        split at h
        next hc =>
          have hdc := pyDecimalVal_of_digit c (by omega)
          simp only [Option.some.injEq, Prod.mk.injEq] at h
          refine ⟨[a, c], by simp [h.2], by simp, by simp, ?_, ?_⟩
          · intro x hx
            rcases List.mem_pair.mp hx with rfl | rfl
            · rw [hda]; rfl
            · rw [hdc]; rfl
          · rw [pyValList_two, hda, hdc]
            simp only [Option.getD_some]
            omega
        next => simp at h
    next => simp at h

theorem dayAlt2_sound (cs : List Char) (v : Nat) (r : List Char)
    (h : dayAlt2 cs = some (v, r)) :
    ∃ pre, cs = pre ++ r ∧ 1 ≤ pre.length ∧ pre.length ≤ 2 ∧
      (∀ c ∈ pre, (pyDecimalVal c).isSome = true) ∧ v = pyValList pre := by
  rcases cs with _ | ⟨a, _ | ⟨c, rest⟩⟩
  · exact Option.noConfusion h
  · rw [dayAlt2_short _ (by simp)] at h; simp at h
  · rw [dayAlt2_eq] at h
    split at h
    next ha =>
      simp only [Bool.or_eq_true, decide_eq_true_eq] at ha
      have hda : pyDecimalVal a = some (a.toNat - 48) :=
        pyDecimalVal_of_digit a (by omega)
      cases hpc : pyDecimalVal c with
      | none => rw [hpc] at h; exact Option.noConfusion h
      | some vc =>
        rw [hpc] at h
        simp only [Option.map, Option.some.injEq, Prod.mk.injEq] at h
        refine ⟨[a, c], by simp [h.2], by simp, by simp, ?_, ?_⟩
        · intro x hx
          rcases List.mem_pair.mp hx with rfl | rfl
          · rw [hda]; rfl
          · rw [hpc]; rfl
        · rw [pyValList_two, hda, hpc]
          simp only [Option.getD_some]
          rcases ha with ha | ha
          · rw [← h.1, if_pos ha]
            omega
          · rw [← h.1, if_neg (by omega)]
            omega
    next => simp at h

theorem dayAlt3_sound (cs : List Char) (v : Nat) (r : List Char)
    (h : dayAlt3 cs = some (v, r)) :
    ∃ pre, cs = pre ++ r ∧ 1 ≤ pre.length ∧ pre.length ≤ 2 ∧
      (∀ c ∈ pre, (pyDecimalVal c).isSome = true) ∧ v = pyValList pre := by
  rcases cs with _ | ⟨a, _ | ⟨c, rest⟩⟩
  · exact Option.noConfusion h
  · rw [dayAlt3_short _ (by simp)] at h; simp at h
  · rw [dayAlt3_eq] at h
    split at h
    next hcond =>
      simp only [Bool.and_eq_true, decide_eq_true_eq] at hcond
      obtain ⟨ha, hc1, hc2⟩ := hcond
      have hda := pyDecimalVal_of_digit a (by omega)
      have hdc := pyDecimalVal_of_digit c (by omega)
      simp only [Option.some.injEq, Prod.mk.injEq] at h
      refine ⟨[a, c], by simp [h.2], by simp, by simp, ?_, ?_⟩
      · intro x hx
        rcases List.mem_pair.mp hx with rfl | rfl
        · rw [hda]; rfl
        · rw [hdc]; rfl
      · rw [pyValList_two, hda, hdc]
        simp only [Option.getD_some]
        omega
    next => simp at h

theorem dayAlt4_sound (cs : List Char) (v : Nat) (r : List Char)
    (h : dayAlt4 cs = some (v, r)) :
    ∃ pre, cs = pre ++ r ∧ 1 ≤ pre.length ∧ pre.length ≤ 2 ∧
      (∀ c ∈ pre, (pyDecimalVal c).isSome = true) ∧ v = pyValList pre := by
  rcases cs with _ | ⟨c, rest⟩
  · exact Option.noConfusion h
  · rw [dayAlt4_eq] at h
    split at h
    next hcond =>
      simp only [Bool.and_eq_true, decide_eq_true_eq] at hcond
      have hdc := pyDecimalVal_of_digit c (by omega)
      simp only [Option.some.injEq, Prod.mk.injEq] at h
      refine ⟨[c], by simp [h.2], by simp, by simp, ?_, ?_⟩
      · intro x hx
        rw [List.mem_singleton.mp hx, hdc]; rfl
      · rw [pyValList_one, hdc]
        simp only [Option.getD_some]
        omega
    next => simp at h

theorem dayAlts_sound (cs : List Char) (v : Nat) (r : List Char)
    (h : (v, r) ∈ dayAlts cs) :
    ∃ pre, cs = pre ++ r ∧ 1 ≤ pre.length ∧ pre.length ≤ 2 ∧
      (∀ c ∈ pre, (pyDecimalVal c).isSome = true) ∧ v = pyValList pre := by
  simp only [dayAlts, List.mem_filterMap, id] at h
  rcases h with ⟨o, ho, rfl⟩
  simp only [List.mem_cons, List.not_mem_nil, or_false] at ho
  rcases ho with h1 | h2 | h3 | h4
  · exact dayAlt1_sound cs v r h1.symm
  · exact dayAlt2_sound cs v r h2.symm
  · exact dayAlt3_sound cs v r h3.symm
  · exact dayAlt4_sound cs v r h4.symm

theorem monthAlt1_eq (a c : Char) (r : List Char) :
    monthAlt1 (a :: c :: r) =
      if a.toNat = 49 && (48 ≤ c.toNat && c.toNat ≤ 50) then
        some (10 + (c.toNat - 48), r)
      else none := rfl

theorem monthAlt2_eq (a c : Char) (r : List Char) :
    monthAlt2 (a :: c :: r) =
      if a.toNat = 48 && (49 ≤ c.toNat && c.toNat ≤ 57) then
        some (c.toNat - 48, r)
      else none := rfl

theorem monthAlt3_eq (c : Char) (r : List Char) :
    monthAlt3 (c :: r) =
      if 49 ≤ c.toNat && c.toNat ≤ 57 then some (c.toNat - 48, r)
      else none := rfl

theorem monthAlt1_short (cs : List Char) (h : cs.length ≤ 1) :
    monthAlt1 cs = none := by
  rcases cs with _ | ⟨a, _ | ⟨c, r⟩⟩ <;> first | rfl | simp at h

theorem monthAlt2_short (cs : List Char) (h : cs.length ≤ 1) :
    monthAlt2 cs = none := by
  rcases cs with _ | ⟨a, _ | ⟨c, r⟩⟩ <;> first | rfl | simp at h

theorem monthAlt1_sound (cs : List Char) (v : Nat) (r : List Char)
    (h : monthAlt1 cs = some (v, r)) :
    ∃ pre, cs = pre ++ r ∧ 1 ≤ pre.length ∧ pre.length ≤ 2 ∧
      (∀ c ∈ pre, (pyDecimalVal c).isSome = true) ∧ v = pyValList pre := by
  rcases cs with _ | ⟨a, _ | ⟨c, rest⟩⟩
  · exact Option.noConfusion h
  · rw [monthAlt1_short _ (by simp)] at h; simp at h
  · rw [monthAlt1_eq] at h
    split at h
    next hcond =>
      simp only [Bool.and_eq_true, decide_eq_true_eq] at hcond
      obtain ⟨ha, hc1, hc2⟩ := hcond
      have hda := pyDecimalVal_of_digit a (by omega)
      have hdc := pyDecimalVal_of_digit c (by omega)
      simp only [Option.some.injEq, Prod.mk.injEq] at h
      refine ⟨[a, c], by simp [h.2], by simp, by simp, ?_, ?_⟩
      · intro x hx
        rcases List.mem_pair.mp hx with rfl | rfl
        · rw [hda]; rfl
        · rw [hdc]; rfl
      · rw [pyValList_two, hda, hdc]
        simp only [Option.getD_some]
        omega
    next => simp at h

theorem monthAlt2_sound (cs : List Char) (v : Nat) (r : List Char)
    (h : monthAlt2 cs = some (v, r)) :
    ∃ pre, cs = pre ++ r ∧ 1 ≤ pre.length ∧ pre.length ≤ 2 ∧
      (∀ c ∈ pre, (pyDecimalVal c).isSome = true) ∧ v = pyValList pre := by
  rcases cs with _ | ⟨a, _ | ⟨c, rest⟩⟩
  · exact Option.noConfusion h
  · rw [monthAlt2_short _ (by simp)] at h; simp at h
  · rw [monthAlt2_eq] at h
    split at h
    next hcond =>
      simp only [Bool.and_eq_true, decide_eq_true_eq] at hcond
      obtain ⟨ha, hc1, hc2⟩ := hcond
      have hda := pyDecimalVal_of_digit a (by omega)
      have hdc := pyDecimalVal_of_digit c (by omega)
      simp only [Option.some.injEq, Prod.mk.injEq] at h
      refine ⟨[a, c], by simp [h.2], by simp, by simp, ?_, ?_⟩
      · intro x hx
        rcases List.mem_pair.mp hx with rfl | rfl
        · rw [hda]; rfl
        · rw [hdc]; rfl
      · rw [pyValList_two, hda, hdc]
        simp only [Option.getD_some]
        omega
    next => simp at h

theorem monthAlt3_sound (cs : List Char) (v : Nat) (r : List Char)
    (h : monthAlt3 cs = some (v, r)) :
    ∃ pre, cs = pre ++ r ∧ 1 ≤ pre.length ∧ pre.length ≤ 2 ∧
      (∀ c ∈ pre, (pyDecimalVal c).isSome = true) ∧ v = pyValList pre := by
  rcases cs with _ | ⟨c, rest⟩
  · exact Option.noConfusion h
  · rw [monthAlt3_eq] at h
    split at h
    next hcond =>
      simp only [Bool.and_eq_true, decide_eq_true_eq] at hcond
      have hdc := pyDecimalVal_of_digit c (by omega)
      simp only [Option.some.injEq, Prod.mk.injEq] at h
      refine ⟨[c], by simp [h.2], by simp, by simp, ?_, ?_⟩
      · intro x hx
        rw [List.mem_singleton.mp hx, hdc]; rfl
      · rw [pyValList_one, hdc]
        simp only [Option.getD_some]
        omega
    next => simp at h

theorem monthAlts_sound (cs : List Char) (v : Nat) (r : List Char)
    (h : (v, r) ∈ monthAlts cs) :
    ∃ pre, cs = pre ++ r ∧ 1 ≤ pre.length ∧ pre.length ≤ 2 ∧
      (∀ c ∈ pre, (pyDecimalVal c).isSome = true) ∧ v = pyValList pre := by
  simp only [monthAlts, List.mem_filterMap, id] at h
  rcases h with ⟨o, ho, rfl⟩
  simp only [List.mem_cons, List.not_mem_nil, or_false] at ho
  rcases ho with h1 | h2 | h3
  · exact monthAlt1_sound cs v r h1.symm
  · exact monthAlt2_sound cs v r h2.symm
  · exact monthAlt3_sound cs v r h3.symm

theorem year4_eq (a b c d : Char) (r : List Char) :
    year4 (a :: b :: c :: d :: r) =
      match pyDecimalVal a, pyDecimalVal b, pyDecimalVal c,
          pyDecimalVal d with
      | some va, some vb, some vc, some vd =>
          some (1000 * va + 100 * vb + 10 * vc + vd, r)
      | _, _, _, _ => none := rfl

theorem year4_sound (cs : List Char) (v : Nat) (r : List Char)
    (h : year4 cs = some (v, r)) :
    ∃ pre, cs = pre ++ r ∧ pre.length = 4 ∧
      (∀ c ∈ pre, (pyDecimalVal c).isSome = true) ∧ v = pyValList pre := by
  rcases cs with _ | ⟨a, _ | ⟨b, _ | ⟨c, _ | ⟨d, rest⟩⟩⟩⟩
  · exact Option.noConfusion h
  · exact Option.noConfusion h
  · exact Option.noConfusion h
  · exact Option.noConfusion h
  · rw [year4_eq] at h
    cases hva : pyDecimalVal a with
    | none => rw [hva] at h; exact Option.noConfusion h
    | some va =>
      cases hvb : pyDecimalVal b with
      | none => rw [hva, hvb] at h; exact Option.noConfusion h
      | some vb =>
        cases hvc : pyDecimalVal c with
        | none => rw [hva, hvb, hvc] at h; exact Option.noConfusion h
        | some vc =>
          cases hvd : pyDecimalVal d with
          | none => rw [hva, hvb, hvc, hvd] at h; exact Option.noConfusion h
          | some vd =>
            rw [hva, hvb, hvc, hvd] at h
            simp only [Option.some.injEq, Prod.mk.injEq] at h
            refine ⟨[a, b, c, d], by simp [h.2], by simp, ?_, ?_⟩
            · intro x hx
              simp only [List.mem_cons, List.not_mem_nil, or_false] at hx
              rcases hx with rfl | rfl | rfl | rfl
              · rw [hva]; rfl
              · rw [hvb]; rfl
              · rw [hvc]; rfl
              · rw [hvd]; rfl
            · simp only [pyValList, List.foldl_cons, List.foldl_nil,
                hva, hvb, hvc, hvd, Option.getD_some]
              omega

theorem regexMatches_sound (cs : List Char) (d m y : Nat)
    (h : (d, m, y) ∈ regexMatches cs) :
    ∃ dcs mcs ycs,
      cs = dcs ++ '.' :: (mcs ++ '.' :: ycs) ∧
      1 ≤ dcs.length ∧ dcs.length ≤ 2 ∧
      (∀ c ∈ dcs, (pyDecimalVal c).isSome = true) ∧
      1 ≤ mcs.length ∧ mcs.length ≤ 2 ∧
      (∀ c ∈ mcs, (pyDecimalVal c).isSome = true) ∧
      ycs.length = 4 ∧ (∀ c ∈ ycs, (pyDecimalVal c).isSome = true) ∧
      d = pyValList dcs ∧ m = pyValList mcs ∧ y = pyValList ycs := by
  simp only [regexMatches, List.mem_flatMap] at h
  rcases h with ⟨⟨dv, r1⟩, hdr, hin⟩
  cases r1 with
  | nil => simp [afterDay] at hin
  | cons c2 r2 =>
    rw [show afterDay (dv, c2 :: r2) =
        (if c2.toNat = 46 then (monthAlts r2).flatMap (afterMonth dv)
         else []) from rfl] at hin
    by_cases h46 : c2.toNat = 46
    case neg => rw [if_neg h46] at hin; simp at hin
    case pos =>
      rw [if_pos h46, List.mem_flatMap] at hin
      rcases hin with ⟨⟨mv, r3⟩, hmr, hin2⟩
      cases r3 with
      | nil => simp [afterMonth] at hin2
      | cons c4 r4 =>
        rw [show afterMonth dv (mv, c4 :: r4) =
            (if c4.toNat = 46 then afterYear dv mv r4 else []) from rfl]
          at hin2
        by_cases h46b : c4.toNat = 46
        case neg => rw [if_neg h46b] at hin2; simp at hin2
        case pos =>
          rw [if_pos h46b] at hin2
          cases hy : year4 r4 with
          | none => simp [afterYear, hy] at hin2
          | some yr =>
            rcases yr with ⟨yv, r5⟩
            simp only [afterYear, hy] at hin2
            by_cases h5 : r5 = []
            case neg => rw [if_neg h5] at hin2; simp at hin2
            case pos =>
              subst h5
              rw [if_pos rfl] at hin2
              simp only [List.mem_singleton, Prod.mk.injEq] at hin2
              obtain ⟨hd, hm2, hy2⟩ := hin2
              obtain ⟨dcs, hcs, hdl1, hdl2, hdd, hdv⟩ :=
                dayAlts_sound cs dv (c2 :: r2) hdr
              obtain ⟨mcs, hr2, hml1, hml2, hmd, hmv⟩ :=
                monthAlts_sound r2 mv (c4 :: r4) hmr
              obtain ⟨ycs, hr4, hyl, hyd, hyv⟩ := year4_sound r4 yv [] hy
              have hc2 : c2 = '.' := char_eq_of_toNat_eq (by rw [h46]; rfl)
              have hc4 : c4 = '.' := char_eq_of_toNat_eq (by rw [h46b]; rfl)
              refine ⟨dcs, mcs, ycs, ?_, hdl1, hdl2, hdd, hml1, hml2, hmd,
                hyl, hyd, hd.trans hdv, hm2.trans hmv, hy2.trans hyv⟩
              rw [hcs, hc2, hr2, hc4, hr4]
              simp

theorem append_dot_inj (a : List Char) : ∀ (b r r2 : List Char),
    a ++ '.' :: r = b ++ '.' :: r2 →
    (∀ c ∈ a, (pyDecimalVal c).isSome = true) →
    (∀ c ∈ b, (pyDecimalVal c).isSome = true) →
    a = b ∧ r = r2 := by
  induction a with
  | nil =>
    intro b r r2 heq ha hb
    cases b with
    | nil =>
      simp only [List.nil_append, List.cons.injEq] at heq
      exact ⟨rfl, heq.2⟩
    | cons x b2 =>
      simp only [List.nil_append, List.cons_append, List.cons.injEq] at heq
      have hx := hb x (by simp)
      rw [← heq.1, dot_not_decimal] at hx
      simp at hx
  | cons x a2 ih =>
    intro b r r2 heq ha hb
    cases b with
    | nil =>
      simp only [List.cons_append, List.nil_append, List.cons.injEq] at heq
      have hx := ha x (by simp)
      rw [heq.1, dot_not_decimal] at hx
      simp at hx
    | cons u b2 =>
      simp only [List.cons_append, List.cons.injEq] at heq
      obtain ⟨hxu, htail⟩ := heq
      obtain ⟨hab, hr⟩ := ih b2 r r2 htail
        (fun c hc => ha c (by simp [hc])) (fun c hc => hb c (by simp [hc]))
      exact ⟨by rw [hxu, hab], hr⟩

theorem regexMatches_unique (cs : List Char) (t1 t2 : Nat × Nat × Nat)
    (h1 : t1 ∈ regexMatches cs) (h2 : t2 ∈ regexMatches cs) : t1 = t2 := by
  rcases t1 with ⟨d1, m1, y1⟩
  rcases t2 with ⟨d2, m2, y2⟩
  obtain ⟨dcs1, mcs1, ycs1, hc1, -, -, hdd1, -, -, hmd1, -, hyd1,
    hv1, hv2, hv3⟩ := regexMatches_sound cs d1 m1 y1 h1
  obtain ⟨dcs2, mcs2, ycs2, hc2, -, -, hdd2, -, -, hmd2, -, hyd2,
    hw1, hw2, hw3⟩ := regexMatches_sound cs d2 m2 y2 h2
  obtain ⟨hd, htail⟩ :=
    append_dot_inj dcs1 dcs2 _ _ (hc1.symm.trans hc2) hdd1 hdd2
  obtain ⟨hm, hy⟩ := append_dot_inj mcs1 mcs2 _ _ htail hmd1 hmd2
  have e1 : d1 = d2 := by rw [hv1, hw1, hd]
  have e2 : m1 = m2 := by rw [hv2, hw2, hm]
  have e3 : y1 = y2 := by rw [hv3, hw3, hy]
  rw [e1, e2, e3]

theorem mem_dayAlts_of_alt (cs : List Char) (x : Nat × List Char)
    (h : dayAlt1 cs = some x ∨ dayAlt2 cs = some x ∨ dayAlt3 cs = some x ∨
      dayAlt4 cs = some x) : x ∈ dayAlts cs := by
  simp only [dayAlts, List.mem_filterMap, id]
  rcases h with h | h | h | h
  · exact ⟨dayAlt1 cs, by simp, h⟩
  · exact ⟨dayAlt2 cs, by simp, h⟩
  · exact ⟨dayAlt3 cs, by simp, h⟩
  · exact ⟨dayAlt4 cs, by simp, h⟩

theorem mem_monthAlts_of_alt (cs : List Char) (x : Nat × List Char)
    (h : monthAlt1 cs = some x ∨ monthAlt2 cs = some x ∨
      monthAlt3 cs = some x) : x ∈ monthAlts cs := by
  simp only [monthAlts, List.mem_filterMap, id]
  rcases h with h | h | h
  · exact ⟨monthAlt1 cs, by simp, h⟩
  · exact ⟨monthAlt2 cs, by simp, h⟩
  · exact ⟨monthAlt3 cs, by simp, h⟩

theorem dayAlts_complete (pre rest : List Char)
    (hd : ∀ c ∈ pre, 48 ≤ c.toNat ∧ c.toNat ≤ 57)
    (hl1 : 1 ≤ pre.length) (hl2 : pre.length ≤ 2)
    (hv1 : 1 ≤ digitsVal pre) (hv2 : digitsVal pre ≤ 31) :
    (digitsVal pre, rest) ∈ dayAlts (pre ++ rest) := by
  rcases pre with _ | ⟨a, _ | ⟨b, _ | ⟨c, t⟩⟩⟩
  · simp at hl1
  · have ha := hd a (by simp)
    have hval : digitsVal [a] = a.toNat - 48 := by simp [digitsVal]
    rw [hval] at hv1 hv2 ⊢
    apply mem_dayAlts_of_alt
    right; right; right
    rw [show ([a] ++ rest) = a :: rest from rfl, dayAlt4_eq,
      if_pos (by simp only [Bool.and_eq_true, decide_eq_true_eq]; omega)]
  · have ha := hd a (by simp)
    have hb := hd b (by simp)
    have hval : digitsVal [a, b] = 10 * (a.toNat - 48) + (b.toNat - 48) := by
      simp [digitsVal]
    rw [hval] at hv1 hv2 ⊢
    apply mem_dayAlts_of_alt
    have hcases : a.toNat = 48 ∨ a.toNat = 49 ∨ a.toNat = 50 ∨
        a.toNat = 51 := by omega
    rcases hcases with h48 | h49 | h50 | h51
    · right; right; left
      rw [show ([a, b] ++ rest) = a :: b :: rest from rfl, dayAlt3_eq,
        if_pos (by simp only [Bool.and_eq_true, decide_eq_true_eq]; omega)]
      refine congrArg some ?_
      rw [Prod.mk.injEq]
      exact ⟨by omega, rfl⟩
    · right; left
      rw [show ([a, b] ++ rest) = a :: b :: rest from rfl, dayAlt2_eq,
        if_pos (by simp only [Bool.or_eq_true, decide_eq_true_eq]; omega),
        pyDecimalVal_of_digit b hb]
      simp only [Option.map]
      rw [if_pos h49]
      refine congrArg some ?_
      rw [Prod.mk.injEq]
      exact ⟨by omega, rfl⟩
    · right; left
      rw [show ([a, b] ++ rest) = a :: b :: rest from rfl, dayAlt2_eq,
        if_pos (by simp only [Bool.or_eq_true, decide_eq_true_eq]; omega),
        pyDecimalVal_of_digit b hb]
      simp only [Option.map]
      rw [if_neg (by omega)]
      refine congrArg some ?_
      rw [Prod.mk.injEq]
      exact ⟨by omega, rfl⟩
    · left
      rw [show ([a, b] ++ rest) = a :: b :: rest from rfl, dayAlt1_eq,
        if_pos h51]
      have hbc : b.toNat = 48 ∨ b.toNat = 49 := by omega
      rcases hbc with hb48 | hb49
      · rw [if_pos hb48]
        refine congrArg some ?_
        rw [Prod.mk.injEq]
        exact ⟨by omega, rfl⟩
      · rw [if_neg (by omega), if_pos hb49]
        refine congrArg some ?_
        rw [Prod.mk.injEq]
        exact ⟨by omega, rfl⟩
  · simp at hl2

theorem monthAlts_complete (pre rest : List Char)
    (hd : ∀ c ∈ pre, 48 ≤ c.toNat ∧ c.toNat ≤ 57)
    (hl1 : 1 ≤ pre.length) (hl2 : pre.length ≤ 2)
    (hv1 : 1 ≤ digitsVal pre) (hv2 : digitsVal pre ≤ 12) :
    (digitsVal pre, rest) ∈ monthAlts (pre ++ rest) := by
  rcases pre with _ | ⟨a, _ | ⟨b, _ | ⟨c, t⟩⟩⟩
  · simp at hl1
  · have ha := hd a (by simp)
    have hval : digitsVal [a] = a.toNat - 48 := by simp [digitsVal]
    rw [hval] at hv1 hv2 ⊢
    apply mem_monthAlts_of_alt
    right; right
    rw [show ([a] ++ rest) = a :: rest from rfl, monthAlt3_eq,
      if_pos (by simp only [Bool.and_eq_true, decide_eq_true_eq]; omega)]
  · have ha := hd a (by simp)
    have hb := hd b (by simp)
    have hval : digitsVal [a, b] = 10 * (a.toNat - 48) + (b.toNat - 48) := by
      simp [digitsVal]
    rw [hval] at hv1 hv2 ⊢
    apply mem_monthAlts_of_alt
    have hcases : a.toNat = 48 ∨ a.toNat = 49 := by omega
    rcases hcases with h48 | h49
    · right; left
      rw [show ([a, b] ++ rest) = a :: b :: rest from rfl, monthAlt2_eq,
        if_pos (by simp only [Bool.and_eq_true, decide_eq_true_eq]; omega)]
      refine congrArg some ?_
      rw [Prod.mk.injEq]
      exact ⟨by omega, rfl⟩
    · left
      rw [show ([a, b] ++ rest) = a :: b :: rest from rfl, monthAlt1_eq,
        if_pos (by simp only [Bool.and_eq_true, decide_eq_true_eq]; omega)]
      refine congrArg some ?_
      rw [Prod.mk.injEq]
      exact ⟨by omega, rfl⟩
  · simp at hl2

theorem year4_complete (ycs rest : List Char)
    (hd : ∀ c ∈ ycs, 48 ≤ c.toNat ∧ c.toNat ≤ 57) (hl : ycs.length = 4) :
    year4 (ycs ++ rest) = some (digitsVal ycs, rest) := by
  rcases ycs with _ | ⟨a, _ | ⟨b, _ | ⟨c, _ | ⟨d, _ | ⟨e, t⟩⟩⟩⟩⟩
  · simp at hl
  · simp at hl
  · simp at hl
  · simp at hl
  · have ha := hd a (by simp)
    have hb := hd b (by simp)
    have hc := hd c (by simp)
    have hdd := hd d (by simp)
    rw [show ([a, b, c, d] ++ rest) = a :: b :: c :: d :: rest from rfl,
      year4_eq, pyDecimalVal_of_digit a ha, pyDecimalVal_of_digit b hb,
      pyDecimalVal_of_digit c hc, pyDecimalVal_of_digit d hdd]
    show some (1000 * (a.toNat - 48) + 100 * (b.toNat - 48) +
      10 * (c.toNat - 48) + (d.toNat - 48), rest) = _
    have hv : digitsVal [a, b, c, d] =
        1000 * (a.toNat - 48) + 100 * (b.toNat - 48) +
          10 * (c.toNat - 48) + (d.toNat - 48) := by
      simp [digitsVal]
      ring
    rw [hv]
  · simp at hl

theorem regexMatches_complete (dcs mcs ycs : List Char)
    (hd : ∀ c ∈ dcs, 48 ≤ c.toNat ∧ c.toNat ≤ 57)
    (hm : ∀ c ∈ mcs, 48 ≤ c.toNat ∧ c.toNat ≤ 57)
    (hy : ∀ c ∈ ycs, 48 ≤ c.toNat ∧ c.toNat ≤ 57)
    (hdl1 : 1 ≤ dcs.length) (hdl2 : dcs.length ≤ 2)
    (hml1 : 1 ≤ mcs.length) (hml2 : mcs.length ≤ 2) (hyl : ycs.length = 4)
    (hdv1 : 1 ≤ digitsVal dcs) (hdv2 : digitsVal dcs ≤ 31)
    (hmv1 : 1 ≤ digitsVal mcs) (hmv2 : digitsVal mcs ≤ 12) :
    (digitsVal dcs, digitsVal mcs, digitsVal ycs) ∈
      regexMatches (dcs ++ '.' :: (mcs ++ '.' :: ycs)) := by
  rw [regexMatches, List.mem_flatMap]
  refine ⟨(digitsVal dcs, '.' :: (mcs ++ '.' :: ycs)),
    dayAlts_complete dcs _ hd hdl1 hdl2 hdv1 hdv2, ?_⟩
  rw [show afterDay (digitsVal dcs, '.' :: (mcs ++ '.' :: ycs)) =
      (if ('.' : Char).toNat = 46 then
        ((monthAlts (mcs ++ '.' :: ycs)).flatMap
          (afterMonth (digitsVal dcs)))
       else []) from rfl,
    if_pos (show ('.' : Char).toNat = 46 from rfl), List.mem_flatMap]
  refine ⟨(digitsVal mcs, '.' :: ycs),
    monthAlts_complete mcs _ hm hml1 hml2 hmv1 hmv2, ?_⟩
  rw [show afterMonth (digitsVal dcs) (digitsVal mcs, '.' :: ycs) =
      (if ('.' : Char).toNat = 46 then
        afterYear (digitsVal dcs) (digitsVal mcs) ycs
       else []) from rfl,
    if_pos (show ('.' : Char).toNat = 46 from rfl)]
  have hy4 : year4 ycs = some (digitsVal ycs, []) := by
    have := year4_complete ycs [] hy hyl
    rwa [List.append_nil] at this
  simp [afterYear, hy4]

theorem daysInMonth_le (y m : Nat) : daysInMonth y m ≤ 31 := by
  unfold daysInMonth
  split
  · split <;> omega
  · split <;> omega

theorem validate_date_iff_spec (s : String)
    (hascii : ∀ c ∈ s.data, c.toNat < 128) :
    Birthday.validate_date s = true ↔ birthdaySpecAccepts s.data := by
  unfold Birthday.validate_date strptimeDMY
  constructor
  · intro h
    cases hm : regexMatches s.data with
    | nil => rw [hm] at h; simp at h
    | cons t tl =>
      rw [hm] at h
      rcases t with ⟨d, m, y⟩
      by_cases hr : isRealDate y m d = true
      case neg =>
        replace h : (if isRealDate y m d = true then
            some (⟨y, m, d⟩ : PyDate) else none).isSome = true := h
        rw [if_neg hr] at h
        simp at h
      case pos =>
        have hmem : (d, m, y) ∈ regexMatches s.data := by rw [hm]; simp
        obtain ⟨dcs, mcs, ycs, hcs, hdl1, hdl2, hdd, hml1, hml2, hmd, hyl,
          hyd, hdv, hmv, hyv⟩ := regexMatches_sound _ _ _ _ hmem
        have hsub : ∀ c, c ∈ dcs ∨ c ∈ mcs ∨ c ∈ ycs → c ∈ s.data := by
          intro c hc
          rw [hcs]
          rcases hc with hc | hc | hc <;> simp [hc]
        have hddig : ∀ c ∈ dcs, 48 ≤ c.toNat ∧ c.toNat ≤ 57 := fun c hc =>
          digit_of_pyDecimalVal_ascii c (hascii c (hsub c (Or.inl hc)))
            (hdd c hc)
        have hmdig : ∀ c ∈ mcs, 48 ≤ c.toNat ∧ c.toNat ≤ 57 := fun c hc =>
          digit_of_pyDecimalVal_ascii c
            (hascii c (hsub c (Or.inr (Or.inl hc)))) (hmd c hc)
        have hydig : ∀ c ∈ ycs, 48 ≤ c.toNat ∧ c.toNat ≤ 57 := fun c hc =>
          digit_of_pyDecimalVal_ascii c
            (hascii c (hsub c (Or.inr (Or.inr hc)))) (hyd c hc)
        refine ⟨dcs, mcs, ycs, hcs, hddig, hmdig, hydig, hdl1, hdl2, hml1,
          hml2, hyl, ?_⟩
        rw [← pyValList_ascii ycs hydig, ← pyValList_ascii mcs hmdig,
          ← pyValList_ascii dcs hddig, ← hyv, ← hmv, ← hdv]
        exact hr
  · rintro ⟨dcs, mcs, ycs, hcs, hddig, hmdig, hydig, hdl1, hdl2, hml1,
      hml2, hyl, hreal⟩
    have h31 : daysInMonth (digitsVal ycs) (digitsVal mcs) ≤ 31 :=
      daysInMonth_le _ _
    have hreal2 := hreal
    simp only [isRealDate, Bool.and_eq_true, decide_eq_true_eq] at hreal2
    obtain ⟨⟨⟨⟨⟨hy1, hy2⟩, hm1⟩, hm2⟩, hd1⟩, hd2⟩ := hreal2
    have hmem := regexMatches_complete dcs mcs ycs hddig hmdig hydig hdl1
      hdl2 hml1 hml2 hyl (by omega) (by omega) (by omega) (by omega)
    rw [← hcs] at hmem
    cases hm : regexMatches s.data with
    | nil => rw [hm] at hmem; simp at hmem
    | cons t tl =>
      have htmem : t ∈ regexMatches s.data := by rw [hm]; simp
      have ht := regexMatches_unique s.data t
        (digitsVal dcs, digitsVal mcs, digitsVal ycs) htmem hmem
      rcases t with ⟨d, m, y⟩
      show (if isRealDate y m d = true then some (⟨y, m, d⟩ : PyDate)
        else none).isSome = true
      obtain ⟨h1, h2, h3⟩ : d = digitsVal dcs ∧ m = digitsVal mcs ∧
          y = digitsVal ycs := by simpa using ht
      rw [h1, h2, h3, if_pos hreal]
      rfl

/-- C5 counterexample: `1.1.2020` — a single-digit day and month — is
ACCEPTED by the `Birthday` constructor, because `strptime`'s `%d` and `%m`
match one or two digits; the claim requires a 2-digit day and month. -/
theorem birthday_accepts_single_digit_day :
    mkBirthday ("1.1.2020") = .ok ⟨"1.1.2020"⟩ := by rfl

/-- C5 (amended): for ASCII input, constructing a `BirthdayDate` succeeds
iff the string is day `.` month `.` year where the day and month have one
or two digits, the year exactly four, and the three numbers denote a real
calendar date; `31.02.2020`, `2020.01.01` and `1-1-2020` remain rejected,
but `1.1.2020` is accepted. -/
theorem birthday_accepts_iff_spec (s : String)
    (hascii : ∀ c ∈ s.data, c.toNat < 128) :
    mkBirthday s = .ok ⟨s⟩ ↔ birthdaySpecAccepts s.data := by
  rw [← validate_date_iff_spec s hascii]
  unfold mkBirthday
  split
  next hv => simp [hv]
  next hv =>
    constructor
    · intro h
      exact absurd h (by simp)
    · intro h
      exact absurd h (by simp [hv])

/-- C5 witness: the amended characterization applied at `29.02.2020` (a
real leap-year date). -/
theorem birthday_accepts_iff_spec_witness :
    birthdaySpecAccepts ("29.02.2020" : String).data :=
  (birthday_accepts_iff_spec ("29.02.2020") (by decide)).mp (by rfl)
